import Mathlib

/-!
Verification of the segmented content-acquisition and sentiment-classification
pipeline of `src/main.py` (bilibili danmaku/comment analysis script).

The Python functions are shallowly embedded as executable Lean definitions:
- `resolveWindows`, `processRow`, `load_segments_from_csv` embed
  `load_segments_from_csv` (including the `时间轴` regex and `time_to_seconds`);
- `fetch_and_save_danmaku` embeds the danmaku fetch loop, with the external
  provider client passed as `Except`-returning function parameters;
- `crawlStep` / `fetch_comments` embed the comment pagination loop;
- `preprocess_text` embeds the text normalizer (the external `jieba`
  segmenter is a function parameter, `re.sub` patterns are implemented);
- `classifyScore` / `classify_texts_by_sentiment` embed the sentiment
  thresholds (the external SnowNLP scorer is a function parameter, with
  `Except.error` modelling a raised exception);
- `get_top_n_words` embeds the frequency aggregator
  (`collections.Counter.most_common` is modelled by a stable descending
  insertion sort over first-occurrence-ordered counts, which is the
  documented behaviour of `Counter`/`sorted`).

Machine integers are modelled as `Nat`/`Int` (Python ints are unbounded, and
all second/window values are non-negative).  Sentiment scores are modelled as
`ℚ`.  Python truthiness is modelled explicitly where the source relies on it
(empty string, zero id).  Python's `\s` / `\d` character classes are modelled
by their ASCII parts (the inputs of interest contain no exotic Unicode
whitespace or digits).
-/

namespace Bili

/-- The three sentiment buckets of `classify_texts_by_sentiment`. -/
inductive Sentiment where
  | positive
  | neutral
  | negative
deriving DecidableEq, Repr

/-- ASCII part of Python's whitespace class (`str.strip` / regex `\s`). -/
def pyWhite (c : Char) : Bool :=
  c = ' ' || c = '\t' || c = '\n' || c = '\r' || c = '\x0b' || c = '\x0c'

/-- Python `str.strip()` on a character list. -/
def pyStrip (l : List Char) : List Char :=
  ((l.dropWhile pyWhite).reverse.dropWhile pyWhite).reverse

/-- Python `not text or not text.strip()` for a string. -/
def pyBlank (t : String) : Bool :=
  pyStrip t.toList = []

/-- The fixed thresholds of `classify_texts_by_sentiment` (src/main.py:450-455):
`score > 0.65 → positive`, `score < 0.35 → negative`, else `neutral`. -/
def classifyScore (s : ℚ) : Sentiment :=
  if 65/100 < s then .positive
  else if s < 35/100 then .negative
  else .neutral

/-- Outcome of scoring one text: the scorer (SnowNLP) is external and may
raise; the `except` branch of the source appends the text to `neutral`. -/
def sentimentOutcome (score : String → Except Unit ℚ) (t : String) : Sentiment :=
  match score t with
  | .ok s => classifyScore s
  | .error _ => .neutral

/-- The three bucket lists built by `classify_texts_by_sentiment`. -/
structure SentimentBuckets where
  positive : List String
  neutral : List String
  negative : List String
deriving DecidableEq, Repr

/-- Embeds `classify_texts_by_sentiment` (src/main.py:438-459): texts that are
falsy or whitespace-only are skipped; otherwise the text is appended to the
bucket selected by the score thresholds, with scorer failure going to
`neutral`. -/
def classify_texts_by_sentiment (score : String → Except Unit ℚ)
    (texts_list : List String) : SentimentBuckets :=
  texts_list.foldl (fun acc t =>
    if pyBlank t then acc
    else
      match sentimentOutcome score t with
      | .positive => { acc with positive := acc.positive ++ [t] }
      | .neutral => { acc with neutral := acc.neutral ++ [t] }
      | .negative => { acc with negative := acc.negative ++ [t] })
    ⟨[], [], []⟩

/-! ### Text normalization (`preprocess_text`, src/main.py:401-435) -/

/-- The character class kept by `re.sub(r"[^一-龥a-zA-Z0-9\s]", "", ...)`:
CJK ideographs, ASCII letters and digits, whitespace. -/
def isKeptChar (c : Char) : Bool :=
  (0x4e00 ≤ c.toNat && c.toNat ≤ 0x9fa5) ||
  ('a' ≤ c && c ≤ 'z') || ('A' ≤ c && c ≤ 'Z') || ('0' ≤ c && c ≤ '9') ||
  pyWhite c

/-- Drops the maximal leading run of non-whitespace characters (`\S+`). -/
def dropRun (l : List Char) : List Char :=
  l.dropWhile (fun c => !pyWhite c)

/-- `re.sub(r"http\S+", "", ...)` with an explicit scan budget (structural
in the budget so that it evaluates by kernel reduction; the wrapper passes
the input length, which always suffices since every step consumes at least
one character): a literal `http` followed by at least one non-whitespace
character consumes the maximal non-whitespace run; otherwise the scanner
advances one character. -/
def subHttpF : Nat → List Char → List Char
  | _, [] => []
  | 0, l => l
  | f + 1, 'h' :: 't' :: 't' :: 'p' :: d :: rest =>
    if !pyWhite d then subHttpF f (dropRun (d :: rest))
    else 'h' :: subHttpF f ('t' :: 't' :: 'p' :: d :: rest)
  | f + 1, c :: rest => c :: subHttpF f rest

/-- `re.sub(r"http\S+", "", ...)`. -/
def subHttp (l : List Char) : List Char := subHttpF l.length l

/-- `re.sub(r"@\S+", "", ...)` with a scan budget. -/
def subAtF : Nat → List Char → List Char
  | _, [] => []
  | 0, l => l
  | f + 1, '@' :: d :: rest =>
    if !pyWhite d then subAtF f (dropRun (d :: rest))
    else '@' :: subAtF f (d :: rest)
  | f + 1, c :: rest => c :: subAtF f rest

/-- `re.sub(r"@\S+", "", ...)`. -/
def subAt (l : List Char) : List Char := subAtF l.length l

/-- `re.sub(r"\[.*?\]", "", ...)` with a scan budget: at a `[`, the
non-greedy body runs to the closest `]` with no newline in between; with no
such `]` the scanner advances past the `[`. -/
def subBracketF : Nat → List Char → List Char
  | _, [] => []
  | 0, l => l
  | f + 1, '[' :: rest =>
    (match rest.drop ((rest.takeWhile
        (fun c => c ≠ ']' && c ≠ '\n')).length) with
     | ']' :: rest2 => subBracketF f rest2
     | _ => '[' :: subBracketF f rest)
  | f + 1, c :: rest => c :: subBracketF f rest

/-- `re.sub(r"\[.*?\]", "", ...)`. -/
def subBracket (l : List Char) : List Char := subBracketF l.length l

/-- The full cleaning pipeline of `preprocess_text` (src/main.py:403-411):
strip URLs, mentions, bracketed markup, disallowed characters, then
`strip()`. -/
def cleanText (text : String) : String :=
  String.mk (pyStrip ((subBracket (subAt (subHttp text.toList))).filter isKeptChar))

/-- Python's substring test `needle in hay` on strings. -/
def hasSub (needle hay : List Char) : Bool :=
  hay.tails.any (fun t => t.take needle.length == needle)

/-- ASCII lowering of one character (`str.lower`; the texts of interest are
CJK plus ASCII, on which Python's lowering agrees with this). -/
def pyLowerChar (c : Char) : Char :=
  if 'A' ≤ c && c ≤ 'Z' then Char.ofNat (c.toNat + 32) else c

/-- Python `str.lower()`. -/
def pyLower (s : String) : String := String.mk (s.toList.map pyLowerChar)

/-- The baseline stopword set of `load_stopwords` (src/main.py:385). -/
def default_stopwords : List String :=
  ["的", "了", "是", "我", "你", "他", "她", "它", "们", "这", "那", "一个", "一些",
   "什么", "怎么", "这个", "那个", "啊", "吧", "吗", "呢", "哈", "哈哈", "哈哈哈",
   "哦", "嗯", "草", "一种", "一样", "这样", "那样", "我们", "你们", "他们",
   "因为", "所以", "而且", "但是", "然而", " ", "\n", "\t"]

/-- Embeds `preprocess_text` (src/main.py:401-435). The external `jieba`
segmenter is the parameter `seg`; `stopwords` is the `STOPWORDS` set (the
baseline plus optional custom stopwords, which the loader lowercases). -/
def preprocess_text (seg : String → List String) (stopwords : List String)
    (custom_filter_words : List String) (text : String) : List String :=
  let t := cleanText text
  if t = "" then []
  else
    let seg_list := seg t
    let words_after_stopwords := seg_list.filter (fun w =>
      !(pyStrip w.toList).isEmpty && !stopwords.contains (pyLower w) &&
        decide (1 < w.length))
    if custom_filter_words.isEmpty then words_after_stopwords
    else
      words_after_stopwords.filter (fun w =>
        !custom_filter_words.any (fun cfw =>
          hasSub (pyLower cfw).toList (pyLower w).toList))

/-! ### Frequency aggregation (`get_top_n_words`, src/main.py:461-476) -/

/-- The distinct words of `l` in first-occurrence order (the key order of an
insertion-ordered `collections.Counter`). -/
def firstOccs : List String → List String
  | [] => []
  | w :: rest => w :: firstOccs (rest.filter (fun v => v ≠ w))
termination_by l => l.length
decreasing_by
  simp only [List.length_cons]
  exact Nat.lt_succ_of_le (List.length_filter_le _ _)

/-- The items of `Counter(l)`: first-occurrence-ordered words with their
multiplicities. -/
def counterItems (l : List String) : List (String × Nat) :=
  (firstOccs l).map (fun w => (w, l.count w))

/-- Stable descending insertion by count: the inserted pair goes before the
first pair with a count not above its own. -/
def insertByCountDesc (x : String × Nat) :
    List (String × Nat) → List (String × Nat)
  | [] => [x]
  | y :: ys => if x.2 < y.2 then y :: insertByCountDesc x ys else x :: y :: ys

/-- Stable sort by descending count (the behaviour of
`sorted(..., reverse=True)` under a count key, hence of
`Counter.most_common`). -/
def sortByCountDesc : List (String × Nat) → List (String × Nat)
  | [] => []
  | x :: xs => insertByCountDesc x (sortByCountDesc xs)

/-- `Counter.most_common(n)`. -/
def most_common (n : Nat) (l : List (String × Nat)) : List (String × Nat) :=
  (sortByCountDesc l).take n

/-- The flattened token stream of `get_top_n_words`: every text normalized
with no extra filter terms, concatenated in input order. -/
def flatTokens (seg : String → List String) (stopwords : List String)
    (texts : List String) : List String :=
  texts.flatMap (fun t => preprocess_text seg stopwords [] t)

/-- Embeds `get_top_n_words` (src/main.py:461-476): empty input or empty
token stream yields `[]`, otherwise the top `top_n` counter items. -/
def get_top_n_words (seg : String → List String) (stopwords : List String)
    (texts_for_sentiment : List String) (top_n : Nat) : List (String × Nat) :=
  if texts_for_sentiment.isEmpty then []
  else if (flatTokens seg stopwords texts_for_sentiment).isEmpty then []
  else most_common top_n (counterItems (flatTokens seg stopwords texts_for_sentiment))

/-! ### Segment loading (`load_segments_from_csv`, src/main.py:155-236) -/

/-- Candidates for `\d{1,2}` (greedy: two digits tried before one), as
(matched chars, remaining input) pairs in backtracking priority order. -/
def hourCands (l : List Char) : List (List Char × List Char) :=
  (match l with
   | a :: b :: r => if a.isDigit && b.isDigit then [([a, b], r)] else []
   | _ => []) ++
  (match l with
   | a :: r => if a.isDigit then [([a], r)] else []
   | _ => [])

/-- Matches `:\d{2}` exactly. -/
def colon2 (l : List Char) : Option (List Char × List Char) :=
  match l with
  | ':' :: a :: b :: r => if a.isDigit && b.isDigit then some ([':', a, b], r) else none
  | _ => none

/-- Candidates for `\d{1,2}:\d{2}(?::\d{2})?` in backtracking priority order
(the optional seconds group is greedy, so the longer parse comes first). -/
def timeCands (l : List Char) : List (List Char × List Char) :=
  (hourCands l).flatMap (fun hc =>
    match colon2 hc.2 with
    | none => []
    | some mc =>
      match colon2 mc.2 with
      | some sc => [(hc.1 ++ mc.1 ++ sc.1, sc.2), (hc.1 ++ mc.1, mc.2)]
      | none => [(hc.1 ++ mc.1, mc.2)])

/-- Matches `\s*-\s*` and returns the remaining input. -/
def afterDash (l : List Char) : Option (List Char) :=
  match l.dropWhile pyWhite with
  | '-' :: r => some (r.dropWhile pyWhite)
  | _ => none

/-- Attempts the whole pattern
`(\d{1,2}:\d{2}(?::\d{2})?)\s*-\s*(\d{1,2}:\d{2}(?::\d{2})?)` at the start of
`l`, returning the two captured groups. -/
def matchRangeAt (l : List Char) : Option (List Char × List Char) :=
  (timeCands l).findSome? (fun gc =>
    match afterDash gc.2 with
    | none => none
    | some r2 =>
      match timeCands r2 with
      | g2 :: _ => some (gc.1, g2.1)
      | [] => none)

/-- `time_pattern.search`: the leftmost position where the range pattern
matches wins. -/
def searchRange : List Char → Option (List Char × List Char)
  | [] => none
  | c :: rest =>
    match matchRangeAt (c :: rest) with
    | some g => some g
    | none => searchRange rest

/-- Python `int(...)` on a string of ASCII digits (`ValueError` is `none`). -/
def pyInt (l : List Char) : Option Nat :=
  if !l.isEmpty && l.all Char.isDigit then
    some (l.foldl (fun n c => n * 10 + (c.toNat - 48)) 0)
  else none

/-- Embeds `time_to_seconds` (src/main.py:135-153) on the string branch:
strip, drop a trailing `".0"`, split on `':'`, convert the 2 or 3 parts with
`int`; a `ValueError` (bad part or wrong arity) is `none`. -/
def time_to_seconds (s : String) : Option Nat :=
  let l0 := pyStrip s.toList
  let l := if l0.reverse.take 2 = ['0', '.'] then l0.dropLast.dropLast else l0
  match (l.splitOn ':').map pyInt with
  | [some h, some m, some sec] => some (h * 3600 + m * 60 + sec)
  | [some m, some sec] => some (m * 60 + sec)
  | _ => none

/-- The provider-window resolution of a valid segment
(src/main.py:213-214): `from_seg = startSeconds // 360`,
`to_seg = (endSeconds - 1) // 360`. -/
def resolveWindows (startSeconds endSeconds : Nat) : Nat × Nat :=
  (startSeconds / 360, (endSeconds - 1) / 360)

/-- The per-segment configuration dict built by `load_segments_from_csv`
(`cid` is always `None` at load time). -/
structure SegConfig where
  page_index : Nat
  cid : Option Nat
  from_seg : Option Nat
  to_seg : Option Nat
deriving DecidableEq, Repr

/-- One CSV row: `节目名称`, `时间轴`, and the optional `P号` cell
(`none` models a missing column or a NaN cell, i.e. `pd.notna` false). -/
structure CsvRow where
  name : String
  timeline : String
  pno : Option String
deriving DecidableEq, Repr

/-- Outcome of Python `int(float(str(cell).strip()))` (main.py:186): a
successful conversion, a `ValueError` (unparseable float, or NaN at the
`int` step — caught by `except ValueError` at main.py:191), or an
`OverflowError` (a float infinity such as `"inf"` or `"1e999"` at the `int`
step — caught by no handler inside the row loop). -/
inductive PyNumResult where
  | ok (k : Int)
  | valueError
  | overflowError
deriving DecidableEq, Repr

/-- The `P号` handling (src/main.py:183-192): a missing/NaN cell or a
`ValueError` falls back to index 0, a converted number `≥ 1` yields
`page_number - 1`, a number below 1 falls back to 0, and an
`OverflowError` escapes the row loop (`Except.error`). -/
def pageIndexOf (pf : String → PyNumResult) (pno : Option String) :
    Except Unit Nat :=
  match pno with
  | none => .ok 0
  | some s =>
    match pf s with
    | .ok k => .ok (if 1 ≤ k then (k - 1).toNat else 0)
    | .valueError => .ok 0
    | .overflowError => .error ()

/-- The `时间轴` parse of a row: regex search followed by `time_to_seconds`
on both captured groups (src/main.py:194-207); `none` means the row is
skipped with a diagnostic. -/
def rowTimes (r : CsvRow) : Option (Nat × Nat) :=
  match searchRange (pyStrip r.timeline.toList) with
  | none => none
  | some g =>
    match time_to_seconds (String.mk g.1), time_to_seconds (String.mk g.2) with
    | some startSeconds, some endSeconds => some (startSeconds, endSeconds)
    | _, _ => none

/-- Processing of a single CSV row (the body of the `for index, row` loop,
src/main.py:179-221). The `P号` cell is handled before the `时间轴` parse,
as in the source. `.ok none` means the row is skipped (`continue`);
`.error` is an exception escaping the loop (the uncaught `OverflowError`
from the `P号` conversion). -/
def processRow (pf : String → PyNumResult) (r : CsvRow) :
    Except Unit (Option (String × SegConfig)) :=
  match pageIndexOf pf r.pno with
  | .error e => .error e
  | .ok page_index =>
    match rowTimes r with
    | none => .ok none
    | some se =>
      if se.2 ≤ se.1 then .ok none
      else
        .ok (some (String.mk (pyStrip r.name.toList),
          { page_index := page_index, cid := none,
            from_seg := some (resolveWindows se.1 se.2).1,
            to_seg := some (resolveWindows se.1 se.2).2 }))

/-- Python dict assignment `d[k] = v` on an insertion-ordered assoc list. -/
def dictInsert {α : Type} (k : String) (v : α) (d : List (String × α)) :
    List (String × α) :=
  if d.any (fun e => e.1 == k) then d.map (fun e => if e.1 == k then (k, v) else e)
  else d ++ [(k, v)]

/-- The row loop of `load_segments_from_csv` under the big `try` of
main.py:158: an exception escaping a row abandons the remaining rows. -/
def loadLoop (pf : String → PyNumResult) :
    List CsvRow → List (String × SegConfig) →
    Except Unit (List (String × SegConfig))
  | [], d => .ok d
  | r :: rest, d =>
    match processRow pf r with
    | .error e => .error e
    | .ok none => loadLoop pf rest d
    | .ok (some kv) => loadLoop pf rest (dictInsert kv.1 kv.2 d)

/-- Embeds `load_segments_from_csv`: `none` models the outer
`except Exception` handler (main.py:230-232) returning `None`, which loses
the whole batch (and makes `main` exit, main.py:1151-1153). -/
def load_segments_from_csv (pf : String → PyNumResult) (rows : List CsvRow) :
    Option (List (String × SegConfig)) :=
  match loadLoop pf rows [] with
  | .error _ => none
  | .ok segs => some segs

/-- A concrete instance of the `int(float(...))` conversion on the cells of
the evaluation inputs below: `"2"` converts to 2; `"inf"` parses as float
infinity, whose `int` conversion raises `OverflowError` in CPython — not a
`ValueError`, so `except ValueError` at main.py:191 misses it; anything
else raises `ValueError`. -/
def pfCex : String → PyNumResult := fun s =>
  if s = "2" then .ok 2 else if s = "inf" then .overflowError else .valueError

/-! ### Danmaku fetching (`fetch_and_save_danmaku`, src/main.py:480-555) -/

/-- CID lookup by sub-video index (src/main.py:499-511): an index inside the
page table resolves there; a single-track video (empty table) with index 0
uses the top-level cid when truthy; anything else skips the segment. -/
def lookupCid (pages_info : List Nat) (topCid : Option Nat)
    (page_index : Nat) : Option Nat :=
  if h : page_index < pages_info.length then some (pages_info.get ⟨page_index, h⟩)
  else if pages_info.isEmpty && page_index == 0 then
    match topCid with
    | some c => if c ≠ 0 then some c else none
    | none => none
  else none

/-- CID resolution for one segment: a falsy stored `cid` (absent or 0)
triggers the lookup. -/
def resolveCid (pages_info : List Nat) (topCid : Option Nat)
    (config : SegConfig) : Option Nat :=
  match config.cid with
  | some c => if c = 0 then lookupCid pages_info topCid config.page_index else some c
  | none => lookupCid pages_info topCid config.page_index

/-- Processing of one segment of `fetch_and_save_danmaku`
(src/main.py:493-539): `none` means the segment is skipped (`continue`,
either because no cid resolves or because retrieval raised); `some texts`
carries the non-blank danmaku texts. `view` models `get_danmaku_view`
(total window count) and `fetchD` models `get_danmakus`. -/
def segOutcome (pages_info : List Nat) (topCid : Option Nat)
    (view : Nat → Except Unit Nat)
    (fetchD : Nat → Nat → Nat → Except Unit (List String))
    (config : SegConfig) : Option (List String) :=
  match resolveCid pages_info topCid config with
  | none => none
  | some cid =>
    match
      (match config.from_seg, config.to_seg with
       | some f, some t => fetchD cid f t
       | _, _ =>
         match view cid with
         | .error e => .error e
         | .ok total => if 0 < total then fetchD cid 0 (total - 1) else .ok []) with
    | .error _ => none
    | .ok raw => some (raw.filter (fun t => t ≠ "" && !(pyStrip t.toList).isEmpty))

/-- Embeds the segment loop of `fetch_and_save_danmaku`: builds the
per-segment dict (`segmented_danmaku_data`) and the flattened combined list
(`all_danmaku_texts_combined`) in input order. -/
def fetch_and_save_danmaku (pages_info : List Nat) (topCid : Option Nat)
    (view : Nat → Except Unit Nat)
    (fetchD : Nat → Nat → Nat → Except Unit (List String))
    (segments_config : List (String × SegConfig)) :
    List (String × List String) × List String :=
  segments_config.foldl (fun acc seg =>
    match segOutcome pages_info topCid view fetchD seg.2 with
    | none => acc
    | some texts => (dictInsert seg.1 texts acc.1, acc.2 ++ texts)) ([], [])

/-! ### Comment crawling (`fetch_comments`, src/main.py:714-785) -/

/-- A first-level nested reply node. -/
structure SubReply where
  rpid : Nat
  message : String
deriving DecidableEq, Repr

/-- A top-level reply node with its one-level-deep nested replies.
`rpid = 0` models a falsy `reply.get('rpid')` and `message = ""` a falsy
`reply['content'].get('message')`; such nodes are never recorded. -/
structure Reply where
  rpid : Nat
  message : String
  replies : List SubReply
deriving DecidableEq, Repr

/-- The `cursor` object of a page response. -/
structure Cursor where
  is_end : Bool
  all_count : Nat
deriving DecidableEq, Repr

/-- One page response; a `none` page models a falsy `comments_page` (the
loop also breaks on a request error, which has the same effect). -/
structure Page where
  replies : List Reply
  cursor : Cursor
deriving DecidableEq, Repr

/-- Crawl state: `current_page_num`, the de-duplication ids
(insertion-ordered, used as a set), and `all_comments_data` as
`(text, id)` records. -/
structure CrawlState where
  current_page_num : Nat
  fetched_comment_ids : List Nat
  all_comments_data : List (String × Nat)
deriving DecidableEq, Repr

/-- Recording of one nested reply (src/main.py:754-759). -/
def collectSub (acc : List Nat × List (String × Nat)) (s : SubReply) :
    List Nat × List (String × Nat) :=
  if s.rpid ≠ 0 ∧ s.rpid ∉ acc.1 ∧ s.message ≠ "" then
    (acc.1 ++ [s.rpid], acc.2 ++ [(s.message, s.rpid)])
  else acc

/-- Recording of one top-level reply and then its nested replies
(src/main.py:745-759); the top-level record condition is the same test as
for a nested reply. -/
def collectReply (acc : List Nat × List (String × Nat)) (r : Reply) :
    List Nat × List (String × Nat) :=
  r.replies.foldl collectSub (collectSub acc ⟨r.rpid, r.message⟩)

/-- Recording of a whole page of top-level replies. -/
def processReplies (rs : List Reply) (acc : List Nat × List (String × Nat)) :
    List Nat × List (String × Nat) :=
  rs.foldl collectReply acc

/-- The break tests run after a non-empty page was folded into `acc`
(src/main.py:762-772), in source order: `cursor.is_end`, distinct-id count
reaching a positive `all_count`, and zero new ids on a page whose
(post-increment) page number exceeds 2. -/
def crawlBranch (pg : Page) (st : CrawlState)
    (acc : List Nat × List (String × Nat)) : CrawlState ⊕ CrawlState :=
  if pg.cursor.is_end then .inl ⟨st.current_page_num + 1, acc.1, acc.2⟩
  else if 0 < pg.cursor.all_count ∧ pg.cursor.all_count ≤ acc.1.length then
    .inl ⟨st.current_page_num + 1, acc.1, acc.2⟩
  else if acc.1.length - st.fetched_comment_ids.length = 0 ∧
      2 < st.current_page_num + 1 then
    .inl ⟨st.current_page_num + 1, acc.1, acc.2⟩
  else .inr ⟨st.current_page_num + 1, acc.1, acc.2⟩

/-- One iteration of the `while True` loop of `fetch_comments`
(src/main.py:725-782): `.inl` is a `break`, `.inr` continues with the next
page. A falsy or reply-less page breaks before anything is recorded. -/
def crawlStep (server : Nat → Option Page) (st : CrawlState) :
    CrawlState ⊕ CrawlState :=
  match server st.current_page_num with
  | none => .inl st
  | some pg =>
    if pg.replies = [] then .inl st
    else
      crawlBranch pg st
        (processReplies pg.replies (st.fetched_comment_ids, st.all_comments_data))

/-- The crawl loop under an iteration budget: returns the final state and
whether a `break` was reached within the budget (each budget unit is one
`FetchPage` iteration). -/
def fetch_comments (server : Nat → Option Page) : Nat → CrawlState → CrawlState × Bool
  | 0, st => (st, false)
  | fuel + 1, st =>
    match crawlStep server st with
    | .inl stop => (stop, true)
    | .inr st2 => fetch_comments server fuel st2

/-- The initial crawl state (`current_page_num = 1`, nothing collected). -/
def initState : CrawlState := ⟨1, [], []⟩

/-- The state component of a step outcome. -/
def stOf : CrawlState ⊕ CrawlState → CrawlState :=
  Sum.elim id id

/-- The state of the crawl after `j` continuing iterations from `st`
(`none` if the loop broke earlier). `crawlIter server j initState = some st`
says the crawl reaches its `(j+1)`-th iteration in state `st`, so the page
`server st.current_page_num` is the one processed next. -/
def crawlIter (server : Nat → Option Page) : Nat → CrawlState → Option CrawlState
  | 0, st => some st
  | j + 1, st =>
    match crawlStep server st with
    | .inl _ => none
    | .inr st2 => crawlIter server j st2

/-- All comment ids carried by one reply tree, in collection order. -/
def idsOfReply (r : Reply) : List Nat :=
  r.rpid :: r.replies.map (fun s => s.rpid)

/-- All comment ids carried by a reply list, in collection order. -/
def idsOfReplies (rs : List Reply) : List Nat :=
  rs.flatMap idsOfReply

/-- A server paginating a fixed top-level reply list with page size `p` and
a constant reported total (`is_end` never set): page `n` carries the
`n`-th size-`p` slice. -/
def paginate (items : List Reply) (p total : Nat) : Nat → Option Page :=
  fun n => some ⟨(items.drop ((n - 1) * p)).take p, ⟨false, total⟩⟩

/-- `i` occurs in `rs` as a recordable comment: somewhere as a top-level or
nested reply id, nonzero and with non-empty message text. -/
def validOccurrence (i : Nat) (rs : List Reply) : Prop :=
  ∃ r ∈ rs, (r.rpid = i ∧ i ≠ 0 ∧ r.message ≠ "") ∨
    ∃ s ∈ r.replies, s.rpid = i ∧ i ≠ 0 ∧ s.message ≠ ""

instance (i : Nat) (rs : List Reply) : Decidable (validOccurrence i rs) := by
  unfold validOccurrence
  exact inferInstance

/-- Concrete crawl input refuting C3 as stated: page 1 signals `is_end`
immediately, page 2 (never fetched) carries id 7 twice. -/
def cexPages3 : List Page :=
  [⟨[⟨1, "a", []⟩], ⟨true, 0⟩⟩,
   ⟨[⟨7, "x", [⟨7, "y"⟩]⟩], ⟨false, 0⟩⟩]

/-- The server serving `cexPages3`. -/
def cexServer3 : Nat → Option Page := fun n => cexPages3[n - 1]?

/-- Concrete crawl input witnessing the amended C3: page 1 carries id 5 both
as a top-level reply and as a nested reply. -/
def cexServerW3 : Nat → Option Page := fun n =>
  if n = 1 then some ⟨[⟨5, "a", [⟨5, "b"⟩]⟩], ⟨true, 0⟩⟩ else none

/-- Every reply of the list is recordable: nonzero ids and non-empty
messages, for the top-level reply and all its nested replies. -/
def wfReplies (rs : List Reply) : Prop :=
  ∀ r ∈ rs, r.rpid ≠ 0 ∧ r.message ≠ "" ∧
    ∀ s ∈ r.replies, s.rpid ≠ 0 ∧ s.message ≠ ""

instance (rs : List Reply) : Decidable (wfReplies rs) := by
  unfold wfReplies
  exact inferInstance

/-- A nested-reply-free reply with id `i`. -/
def mkReply (i : Nat) : Reply := ⟨i, "a", []⟩

/-- Concrete page sequence refuting the C2 iteration bound as stated:
`all_count = 6` is truthful (the distinct ids served are 1..6) and every
page carries `pageSize = 2` top-level replies, but consecutive pages overlap
by one id, so each page past the first contributes only one new id. -/
def cexPages2 : List Page :=
  [⟨[mkReply 1, mkReply 2], ⟨false, 6⟩⟩,
   ⟨[mkReply 2, mkReply 3], ⟨false, 6⟩⟩,
   ⟨[mkReply 3, mkReply 4], ⟨false, 6⟩⟩,
   ⟨[mkReply 4, mkReply 5], ⟨false, 6⟩⟩,
   ⟨[mkReply 5, mkReply 6], ⟨false, 6⟩⟩]

/-- The server serving `cexPages2`. -/
def cexServer2 : Nat → Option Page := fun n => cexPages2[n - 1]?

/-- Invariant tying the records to the de-duplication ids: the record ids
are exactly the fetched ids (in order), and the fetched ids are distinct. -/
def accInv (acc : List Nat × List (String × Nat)) : Prop :=
  acc.2.map Prod.snd = acc.1 ∧ acc.1.Nodup

/-- The crawl-state form of `accInv`. -/
def StInv (st : CrawlState) : Prop :=
  accInv (st.fetched_comment_ids, st.all_comments_data)

/-- Bool test selecting the texts that land in bucket `b`. -/
def inBucket (score : String → Except Unit ℚ) (b : Sentiment) (t : String) : Bool :=
  !pyBlank t && decide (sentimentOutcome score t = b)

theorem classify_foldl (score : String → Except Unit ℚ) (texts : List String)
    (acc : SentimentBuckets) :
    texts.foldl (fun acc t =>
      if pyBlank t then acc
      else
        match sentimentOutcome score t with
        | .positive => { acc with positive := acc.positive ++ [t] }
        | .neutral => { acc with neutral := acc.neutral ++ [t] }
        | .negative => { acc with negative := acc.negative ++ [t] }) acc =
    ⟨acc.positive ++ texts.filter (inBucket score .positive),
     acc.neutral ++ texts.filter (inBucket score .neutral),
     acc.negative ++ texts.filter (inBucket score .negative)⟩ := by
  induction texts generalizing acc with
  | nil => simp
  | cons t ts ih =>
    simp only [List.foldl_cons, List.filter_cons]
    by_cases hb : pyBlank t
    · simp [hb, inBucket, ih]
    · cases ho : sentimentOutcome score t <;>
        simp [hb, inBucket, ho, ih, List.append_assoc]

theorem filter_bucket_lengths (score : String → Except Unit ℚ) (texts : List String) :
    (texts.filter (inBucket score .positive)).length
      + (texts.filter (inBucket score .neutral)).length
      + (texts.filter (inBucket score .negative)).length
      = (texts.filter (fun t => !pyBlank t)).length := by
  induction texts with
  | nil => simp
  | cons t ts ih =>
    simp only [List.filter_cons]
    by_cases hb : pyBlank t
    · simp [hb, inBucket, ih]
    · cases ho : sentimentOutcome score t <;>
        simp [hb, inBucket, ho, List.length_cons] <;> omega

/-- C9: `classify_texts_by_sentiment` partitions the non-blank texts into the
three buckets, each bucket being the order-preserving sublist of texts whose
score outcome selects that bucket; the bucket sizes sum to the number of
non-blank texts, and blank or whitespace-only texts appear in no bucket. -/
theorem classify_texts_spec (score : String → Except Unit ℚ) (texts : List String) :
    (classify_texts_by_sentiment score texts
        = ⟨texts.filter (inBucket score .positive),
           texts.filter (inBucket score .neutral),
           texts.filter (inBucket score .negative)⟩) ∧
    ((classify_texts_by_sentiment score texts).positive.length
      + (classify_texts_by_sentiment score texts).neutral.length
      + (classify_texts_by_sentiment score texts).negative.length
      = (texts.filter (fun t => !pyBlank t)).length) ∧
    (∀ t : String, pyBlank t →
      t ∉ (classify_texts_by_sentiment score texts).positive ∧
      t ∉ (classify_texts_by_sentiment score texts).neutral ∧
      t ∉ (classify_texts_by_sentiment score texts).negative) := by
  have hmain : classify_texts_by_sentiment score texts
      = ⟨texts.filter (inBucket score .positive),
         texts.filter (inBucket score .neutral),
         texts.filter (inBucket score .negative)⟩ := by
    unfold classify_texts_by_sentiment
    simpa using classify_foldl score texts ⟨[], [], []⟩
  refine ⟨hmain, ?_, ?_⟩
  · rw [hmain]; exact filter_bucket_lengths score texts
  · intro t ht
    rw [hmain]
    refine ⟨?_, ?_, ?_⟩ <;>
      · intro hmem
        have := List.of_mem_filter hmem
        simp [inBucket, ht] at this

/-- Witness for C9 at a concrete scorer and text list. -/
theorem classify_texts_spec_w :
    (∀ t : String, pyBlank t →
      t ∉ (classify_texts_by_sentiment (fun _ => .ok (1/2)) ["好看", " "]).positive ∧
      t ∉ (classify_texts_by_sentiment (fun _ => .ok (1/2)) ["好看", " "]).neutral ∧
      t ∉ (classify_texts_by_sentiment (fun _ => .ok (1/2)) ["好看", " "]).negative) :=
  (classify_texts_spec (fun _ => .ok (1/2)) ["好看", " "]).2.2

/-- C4: classification of a score in `[0,1]` is positive iff the score exceeds
0.65, negative iff it is below 0.35, and neutral otherwise; both boundary
values 0.65 and 0.35 map to neutral. -/
theorem classifyScore_spec :
    (∀ s : ℚ, 0 ≤ s → s ≤ 1 →
      ((classifyScore s = .positive ↔ 65/100 < s) ∧
       (classifyScore s = .negative ↔ s < 35/100) ∧
       (classifyScore s = .neutral ↔ 35/100 ≤ s ∧ s ≤ 65/100))) ∧
    classifyScore (65/100) = .neutral ∧ classifyScore (35/100) = .neutral := by
  refine ⟨fun s _ _ => ?_, by norm_num [classifyScore], by norm_num [classifyScore]⟩
  unfold classifyScore
  split_ifs with h1 h2
  · exact ⟨iff_of_true rfl h1,
      iff_of_false (by decide) (by linarith),
      iff_of_false (by decide) (fun h => by linarith [h.2])⟩
  · exact ⟨iff_of_false (by decide) h1,
      iff_of_true rfl h2,
      iff_of_false (by decide) (fun h => absurd h2 (not_lt.mpr h.1))⟩
  · exact ⟨iff_of_false (by decide) h1,
      iff_of_false (by decide) h2,
      iff_of_true rfl ⟨not_lt.mp h2, not_lt.mp h1⟩⟩

/-- Witness for C4 at score 1/2. -/
theorem classifyScore_spec_w :
    (classifyScore (1/2) = .positive ↔ 65/100 < (1/2 : ℚ)) ∧
    (classifyScore (1/2) = .negative ↔ (1/2 : ℚ) < 35/100) ∧
    (classifyScore (1/2) = .neutral ↔ 35/100 ≤ (1/2 : ℚ) ∧ (1/2 : ℚ) ≤ 65/100) :=
  classifyScore_spec.1 (1/2) (by norm_num) (by norm_num)

/-- C1: for every valid segment (`startSeconds < endSeconds`), the resolved
window range satisfies `fromWindow ≤ toWindow` and
`toWindow*360 < endSeconds ≤ (toWindow+1)*360`; resolving `{start=0,end=1}`
yields `(0,0)` and `{start=359,end=361}` yields `(0,1)`. -/
theorem resolveWindows_spec :
    (∀ s e : Nat, s < e →
      (resolveWindows s e).1 ≤ (resolveWindows s e).2 ∧
      (resolveWindows s e).2 * 360 < e ∧
      e ≤ ((resolveWindows s e).2 + 1) * 360) ∧
    resolveWindows 0 1 = (0, 0) ∧ resolveWindows 359 361 = (0, 1) := by
  refine ⟨fun s e hse => ?_, rfl, rfl⟩
  unfold resolveWindows
  have h1 : s ≤ e - 1 := by omega
  refine ⟨Nat.div_le_div_right h1, ?_, ?_⟩
  · have h2 := Nat.div_mul_le_self (e - 1) 360
    omega
  · have h3 := Nat.div_add_mod (e - 1) 360
    have h4 : (e - 1) % 360 < 360 := Nat.mod_lt _ (by norm_num)
    omega

/-- Witness for C1 at the segment `{start=0, end=1}`. -/
theorem resolveWindows_spec_w :
    (resolveWindows 0 1).1 ≤ (resolveWindows 0 1).2 ∧
    (resolveWindows 0 1).2 * 360 < 1 ∧
    1 ≤ ((resolveWindows 0 1).2 + 1) * 360 :=
  resolveWindows_spec.1 0 1 (by decide)

/-- C6 (code bug): evaluation of the loader at the failing input — a batch
whose first row has an unparseable time range and a `P号` cell of `"inf"`
makes `load_segments_from_csv` return `None` (the uncaught `OverflowError`
reaches the outer handler, main.py:230-232), even though the remaining
valid row alone loads fine: the bad row aborts the whole batch instead of
being skipped with the rest still processed. -/
theorem load_segments_overflow_bug :
    rowTimes ⟨"B", "junk", some "inf"⟩ = none ∧
    load_segments_from_csv pfCex
        [⟨"B", "junk", some "inf"⟩, ⟨"A", "0:00-0:01", none⟩] = none ∧
    load_segments_from_csv pfCex [⟨"A", "0:00-0:01", none⟩]
      = some [("A", ⟨0, none, some 0, some 0⟩)] := by
  decide

/-- C10 (code bug): evaluation of the loader at the failing input — a row
valid except for its `P号` cell is kept with the default index 0 when the
cell raises `ValueError` (`"x"`), and indexed when it converts (`"2"` →
index 1), but a float-overflow cell (`"inf"`) aborts the entire load: an
invalid page number can drop every segment rather than never dropping any. -/
theorem page_index_overflow_bug :
    load_segments_from_csv pfCex [⟨"A", "0:00-0:01", some "x"⟩]
      = some [("A", ⟨0, none, some 0, some 0⟩)] ∧
    load_segments_from_csv pfCex [⟨"A", "0:00-0:01", some "2"⟩]
      = some [("A", ⟨1, none, some 0, some 0⟩)] ∧
    load_segments_from_csv pfCex [⟨"A", "0:00-0:01", some "inf"⟩] = none := by
  decide

theorem collectSub_accInv (acc : List Nat × List (String × Nat)) (s : SubReply)
    (h : accInv acc) : accInv (collectSub acc s) := by
  unfold collectSub
  split_ifs with hc
  · exact ⟨by simp [h.1], by simp [List.nodup_append, h.2, hc.2.1]⟩
  · exact h

theorem collectSub_mem (acc : List Nat × List (String × Nat)) (s : SubReply)
    (i : Nat) (h : i ∈ acc.1) : i ∈ (collectSub acc s).1 := by
  unfold collectSub
  split_ifs with hc
  · exact List.mem_append_left _ h
  · exact h

theorem collectSub_self (acc : List Nat × List (String × Nat)) (s : SubReply)
    (h0 : s.rpid ≠ 0) (hm : s.message ≠ "") : s.rpid ∈ (collectSub acc s).1 := by
  unfold collectSub
  split_ifs with hc
  · simp
  · have : s.rpid ∈ acc.1 := by tauto
    exact this

theorem foldSub_accInv (ss : List SubReply) :
    ∀ acc, accInv acc → accInv (ss.foldl collectSub acc) := by
  induction ss with
  | nil => exact fun acc h => h
  | cons s rest ih => exact fun acc h => ih _ (collectSub_accInv acc s h)

theorem foldSub_mem (ss : List SubReply) (i : Nat) :
    ∀ acc, i ∈ acc.1 → i ∈ (ss.foldl collectSub acc).1 := by
  induction ss with
  | nil => exact fun acc h => h
  | cons s rest ih => exact fun acc h => ih _ (collectSub_mem acc s i h)

theorem foldSub_adds (ss : List SubReply) (s : SubReply) (hs : s ∈ ss)
    (h0 : s.rpid ≠ 0) (hm : s.message ≠ "") :
    ∀ acc, s.rpid ∈ (ss.foldl collectSub acc).1 := by
  induction ss with
  | nil => exact absurd hs (List.not_mem_nil s)
  | cons t rest ih =>
    intro acc
    rcases List.mem_cons.mp hs with hst | hs'
    · subst hst
      exact foldSub_mem rest s.rpid _ (collectSub_self acc s h0 hm)
    · exact ih hs' _

theorem collectReply_accInv (acc : List Nat × List (String × Nat)) (r : Reply)
    (h : accInv acc) : accInv (collectReply acc r) :=
  foldSub_accInv r.replies _ (collectSub_accInv acc _ h)

theorem collectReply_mem (acc : List Nat × List (String × Nat)) (r : Reply)
    (i : Nat) (h : i ∈ acc.1) : i ∈ (collectReply acc r).1 :=
  foldSub_mem r.replies i _ (collectSub_mem acc _ i h)

theorem collectReply_adds (acc : List Nat × List (String × Nat)) (r : Reply)
    (i : Nat)
    (h : (r.rpid = i ∧ i ≠ 0 ∧ r.message ≠ "") ∨
      ∃ s ∈ r.replies, s.rpid = i ∧ i ≠ 0 ∧ s.message ≠ "") :
    i ∈ (collectReply acc r).1 := by
  rcases h with ⟨hid, h0, hm⟩ | ⟨s, hs, hid, h0, hm⟩
  · subst hid
    exact foldSub_mem r.replies r.rpid _
      (collectSub_self acc ⟨r.rpid, r.message⟩ h0 hm)
  · subst hid
    exact foldSub_adds r.replies s hs h0 hm _

theorem processReplies_accInv (rs : List Reply) :
    ∀ acc, accInv acc → accInv (processReplies rs acc) := by
  induction rs with
  | nil => exact fun acc h => h
  | cons r rest ih => exact fun acc h => ih _ (collectReply_accInv acc r h)

theorem processReplies_mem (rs : List Reply) (i : Nat) :
    ∀ acc, i ∈ acc.1 → i ∈ (processReplies rs acc).1 := by
  induction rs with
  | nil => exact fun acc h => h
  | cons r rest ih => exact fun acc h => ih _ (collectReply_mem acc r i h)

theorem processReplies_adds (rs : List Reply) (i : Nat)
    (h : validOccurrence i rs) : ∀ acc, i ∈ (processReplies rs acc).1 := by
  induction rs with
  | nil => rcases h with ⟨r, hr, _⟩; exact absurd hr (List.not_mem_nil r)
  | cons t rest ih =>
    intro acc
    rcases h with ⟨r, hr, hocc⟩
    rcases List.mem_cons.mp hr with hrt | hr'
    · subst hrt
      exact processReplies_mem rest i _ (collectReply_adds acc r i hocc)
    · exact ih ⟨r, hr', hocc⟩ _

theorem crawlStep_stOf (server : Nat → Option Page) (st : CrawlState) (pg : Page)
    (h : server st.current_page_num = some pg) (hne : pg.replies ≠ []) :
    stOf (crawlStep server st)
      = ⟨st.current_page_num + 1,
         (processReplies pg.replies (st.fetched_comment_ids, st.all_comments_data)).1,
         (processReplies pg.replies (st.fetched_comment_ids, st.all_comments_data)).2⟩ := by
  simp only [crawlStep, h]
  rw [if_neg hne]
  unfold crawlBranch
  split_ifs <;> rfl

theorem crawlStep_pres (server : Nat → Option Page) (st : CrawlState) (i : Nat)
    (h : StInv st) (hm : i ∈ st.fetched_comment_ids) :
    StInv (stOf (crawlStep server st)) ∧
      i ∈ (stOf (crawlStep server st)).fetched_comment_ids := by
  cases hsv : server st.current_page_num with
  | none =>
    have hcs : crawlStep server st = .inl st := by simp [crawlStep, hsv]
    rw [hcs]
    exact ⟨h, hm⟩
  | some pg =>
    by_cases hr : pg.replies = []
    · have hcs : crawlStep server st = .inl st := by simp [crawlStep, hsv, hr]
      rw [hcs]
      exact ⟨h, hm⟩
    · rw [crawlStep_stOf server st pg hsv hr]
      exact ⟨processReplies_accInv pg.replies
          (st.fetched_comment_ids, st.all_comments_data) h,
        processReplies_mem pg.replies i
          (st.fetched_comment_ids, st.all_comments_data) hm⟩

theorem crawl_count (server : Nat → Option Page) (i : Nat) :
    ∀ (fuel : Nat) (st : CrawlState), StInv st → i ∈ st.fetched_comment_ids →
      ((fetch_comments server fuel st).1.all_comments_data.map Prod.snd).count i
        = 1 := by
  intro fuel
  induction fuel with
  | zero =>
    intro st h hm
    show ((st.all_comments_data.map Prod.snd).count i) = 1
    rw [h.1]
    exact List.count_eq_one_of_mem h.2 hm
  | succ f ih =>
    intro st h hm
    show (((match crawlStep server st with
      | .inl stop => (stop, true)
      | .inr st2 => fetch_comments server f st2).1).all_comments_data.map
        Prod.snd).count i = 1
    cases hcs : crawlStep server st with
    | inl s =>
      have hp := crawlStep_pres server st i h hm
      rw [hcs] at hp
      simp only [stOf, Sum.elim_inl, id] at hp
      show ((s.all_comments_data.map Prod.snd).count i) = 1
      rw [hp.1.1]
      exact List.count_eq_one_of_mem hp.1.2 hp.2
    | inr s =>
      have hp := crawlStep_pres server st i h hm
      rw [hcs] at hp
      simp only [stOf, Sum.elim_inr, id] at hp
      exact ih s hp.1 hp.2

/-- C3 counterexample: a crawl input in which id 7 appears twice (as a
top-level and as a nested reply on page 2) yet the final result contains a
record with id 7 zero times, not once — page 1 ends the crawl before page 2
is ever fetched. -/
theorem fetch_comments_dedup_cex :
    2 ≤ (cexPages3.flatMap (fun pg => idsOfReplies pg.replies)).count 7 ∧
    (fetch_comments cexServer3 10 initState).2 = true ∧
    ((fetch_comments cexServer3 10 initState).1.all_comments_data.map
        Prod.snd).count 7 = 0 := by
  decide

theorem crawlStep_inv (server : Nat → Option Page) (st : CrawlState)
    (h : StInv st) : StInv (stOf (crawlStep server st)) := by
  cases hsv : server st.current_page_num with
  | none =>
    have hcs : crawlStep server st = .inl st := by simp [crawlStep, hsv]
    rw [hcs]
    exact h
  | some pg =>
    by_cases hr : pg.replies = []
    · have hcs : crawlStep server st = .inl st := by simp [crawlStep, hsv, hr]
      rw [hcs]
      exact h
    · rw [crawlStep_stOf server st pg hsv hr]
      exact processReplies_accInv pg.replies
        (st.fetched_comment_ids, st.all_comments_data) h

theorem crawl_inv (server : Nat → Option Page) :
    ∀ (fuel : Nat) (st : CrawlState), StInv st →
      StInv (fetch_comments server fuel st).1 := by
  intro fuel
  induction fuel with
  | zero => intro st h; exact h
  | succ f ih =>
    intro st h
    show StInv (match crawlStep server st with
      | .inl stop => (stop, true)
      | .inr st2 => fetch_comments server f st2).1
    cases hcs : crawlStep server st with
    | inl s =>
      have hs := crawlStep_inv server st h
      rw [hcs] at hs
      simpa [stOf] using hs
    | inr s =>
      have hs := crawlStep_inv server st h
      rw [hcs] at hs
      simp only [stOf, Sum.elim_inr, id] at hs
      exact ih s hs

theorem crawl_count_le_one (server : Nat → Option Page) (fuel k : Nat) :
    ((fetch_comments server fuel initState).1.all_comments_data.map
        Prod.snd).count k ≤ 1 := by
  have h := crawl_inv server fuel initState ⟨rfl, List.nodup_nil⟩
  rw [h.1]
  exact List.nodup_iff_count_le_one.mp h.2 k

theorem crawl_reach_count (server : Nat → Option Page) (i : Nat) :
    ∀ (j : Nat) (st : CrawlState) (fuel : Nat) (stR : CrawlState) (pg : Page),
      StInv st →
      crawlIter server j st = some stR →
      server stR.current_page_num = some pg →
      pg.replies ≠ [] →
      validOccurrence i pg.replies →
      j < fuel →
      ((fetch_comments server fuel st).1.all_comments_data.map Prod.snd).count i
        = 1 := by
  intro j
  induction j with
  | zero =>
    intro st fuel stR pg hinv hreach hsv hne hval hj
    have hstR : st = stR := Option.some_inj.mp hreach
    subst hstR
    obtain ⟨f, rfl⟩ : ∃ f, fuel = f + 1 := ⟨fuel - 1, by omega⟩
    have hst := crawlStep_stOf server st pg hsv hne
    have hmem1 : i ∈ (stOf (crawlStep server st)).fetched_comment_ids := by
      rw [hst]
      exact processReplies_adds pg.replies i hval _
    have hinv1 : StInv (stOf (crawlStep server st)) := by
      rw [hst]
      exact processReplies_accInv pg.replies
        (st.fetched_comment_ids, st.all_comments_data) hinv
    show (((match crawlStep server st with
      | .inl stop => (stop, true)
      | .inr st2 => fetch_comments server f st2).1).all_comments_data.map
        Prod.snd).count i = 1
    cases hcs : crawlStep server st with
    | inl s =>
      rw [hcs] at hinv1 hmem1
      simp only [stOf, Sum.elim_inl, id] at hinv1 hmem1
      show ((s.all_comments_data.map Prod.snd).count i) = 1
      rw [hinv1.1]
      exact List.count_eq_one_of_mem hinv1.2 hmem1
    | inr s =>
      rw [hcs] at hinv1 hmem1
      simp only [stOf, Sum.elim_inr, id] at hinv1 hmem1
      exact crawl_count server i f s hinv1 hmem1
  | succ j ih =>
    intro st fuel stR pg hinv hreach hsv hne hval hj
    obtain ⟨f, rfl⟩ : ∃ f, fuel = f + 1 := ⟨fuel - 1, by omega⟩
    have hreach2 : (match crawlStep server st with
      | .inl _ => none
      | .inr st2 => crawlIter server j st2) = some stR := hreach
    show (((match crawlStep server st with
      | .inl stop => (stop, true)
      | .inr st2 => fetch_comments server f st2).1).all_comments_data.map
        Prod.snd).count i = 1
    cases hcs : crawlStep server st with
    | inl s =>
      rw [hcs] at hreach2
      exact absurd hreach2 (by simp)
    | inr s =>
      rw [hcs] at hreach2
      have hinv2 : StInv s := by
        have hs := crawlStep_inv server st hinv
        rw [hcs] at hs
        simpa [stOf] using hs
      exact ih s f stR pg hinv2 hreach2 hsv hne hval (by omega)

/-- C3 (amended): if a comment id occurs more than once among the replies
of pages the crawler actually processes — on the page served at a state the
crawl reaches within its iteration budget (`crawlIter`, e.g. `j = 0` is
page 1), twice on that page or once more on another processed page, as a
top-level or nested reply in either order — and at least one occurrence is
recordable (nonzero id, non-empty message), then the final result contains
a record with that id exactly once; and no crawl result ever contains any
id twice. -/
theorem fetch_comments_dedup (server : Nat → Option Page) (fuel i j : Nat)
    (st : CrawlState) (pg : Page)
    (hj : j < fuel)
    (hreach : crawlIter server j initState = some st)
    (hsv : server st.current_page_num = some pg)
    (hne : pg.replies ≠ [])
    (_hdup : 2 ≤ (idsOfReplies pg.replies).count i ∨
      ∃ j2 st2 pg2, j2 < fuel ∧ j2 ≠ j ∧
        crawlIter server j2 initState = some st2 ∧
        server st2.current_page_num = some pg2 ∧ pg2.replies ≠ [] ∧
        i ∈ idsOfReplies pg2.replies)
    (hval : validOccurrence i pg.replies) :
    ((fetch_comments server fuel initState).1.all_comments_data.map
        Prod.snd).count i = 1 ∧
    ∀ (server2 : Nat → Option Page) (fuel2 k : Nat),
      ((fetch_comments server2 fuel2 initState).1.all_comments_data.map
          Prod.snd).count k ≤ 1 :=
  ⟨crawl_reach_count server i j initState fuel st pg ⟨rfl, List.nodup_nil⟩
      hreach hsv hne hval hj,
   fun server2 fuel2 k => crawl_count_le_one server2 fuel2 k⟩

/-- Witness for the amended C3: id 5 occurs on page 1 (a processed page)
both as a top-level and a nested reply and is recorded exactly once. -/
theorem fetch_comments_dedup_w :
    ((fetch_comments cexServerW3 3 initState).1.all_comments_data.map
        Prod.snd).count 5 = 1 :=
  (fetch_comments_dedup cexServerW3 3 5 0 initState
    ⟨[⟨5, "a", [⟨5, "b"⟩]⟩], ⟨true, 0⟩⟩
    (by decide) rfl (by decide) (by decide) (Or.inl (by decide))
    (by decide)).1

theorem idsOfReplies_append (a b : List Reply) :
    idsOfReplies (a ++ b) = idsOfReplies a ++ idsOfReplies b := by
  simp [idsOfReplies]

theorem length_idsOfReplies_ge (rs : List Reply) :
    rs.length ≤ (idsOfReplies rs).length := by
  induction rs with
  | nil => simp [idsOfReplies]
  | cons r rest ih =>
    simp only [idsOfReplies, List.flatMap_cons, List.length_append,
      List.length_cons, idsOfReply, List.length_cons] at *
    omega

theorem foldSub_fresh (ss : List SubReply) :
    ∀ acc : List Nat × List (String × Nat),
      (∀ s ∈ ss, s.rpid ∉ acc.1 ∧ s.rpid ≠ 0 ∧ s.message ≠ "") →
      (ss.map (fun s => s.rpid)).Nodup →
      (ss.foldl collectSub acc).1 = acc.1 ++ ss.map (fun s => s.rpid) := by
  induction ss with
  | nil => intro acc _ _; simp
  | cons s rest ih =>
    intro acc hfresh hnd
    simp only [List.map_cons, List.nodup_cons] at hnd
    have hs := hfresh s (List.mem_cons_self s rest)
    have hcs : collectSub acc s
        = (acc.1 ++ [s.rpid], acc.2 ++ [(s.message, s.rpid)]) := by
      unfold collectSub
      rw [if_pos ⟨hs.2.1, hs.1, hs.2.2⟩]
    have hrest : ∀ t ∈ rest,
        t.rpid ∉ acc.1 ++ [s.rpid] ∧ t.rpid ≠ 0 ∧ t.message ≠ "" := by
      intro t ht
      have h2 := hfresh t (List.mem_cons_of_mem s ht)
      refine ⟨?_, h2.2.1, h2.2.2⟩
      simp only [List.mem_append, List.mem_singleton]
      push_neg
      refine ⟨h2.1, fun he => hnd.1 ?_⟩
      rw [← he]
      exact List.mem_map_of_mem _ ht
    rw [List.foldl_cons, hcs, ih _ hrest hnd.2]
    simp

theorem collectReply_fresh (acc : List Nat × List (String × Nat)) (r : Reply)
    (hfresh : ∀ j ∈ idsOfReply r, j ∉ acc.1)
    (hnd : (idsOfReply r).Nodup)
    (hwf : r.rpid ≠ 0 ∧ r.message ≠ "" ∧
      ∀ s ∈ r.replies, s.rpid ≠ 0 ∧ s.message ≠ "") :
    (collectReply acc r).1 = acc.1 ++ idsOfReply r := by
  unfold collectReply
  simp only [idsOfReply, List.nodup_cons] at hnd
  have htop : collectSub acc ⟨r.rpid, r.message⟩
      = (acc.1 ++ [r.rpid], acc.2 ++ [(r.message, r.rpid)]) := by
    unfold collectSub
    exact if_pos ⟨hwf.1, hfresh r.rpid (List.mem_cons_self _ _), hwf.2.1⟩
  have hrest : ∀ t ∈ r.replies,
      t.rpid ∉ acc.1 ++ [r.rpid] ∧ t.rpid ≠ 0 ∧ t.message ≠ "" := by
    intro t ht
    refine ⟨?_, (hwf.2.2 t ht).1, (hwf.2.2 t ht).2⟩
    simp only [List.mem_append, List.mem_singleton]
    push_neg
    refine ⟨hfresh t.rpid (List.mem_cons_of_mem _ (List.mem_map_of_mem _ ht)),
      fun he => hnd.1 ?_⟩
    rw [← he]
    exact List.mem_map_of_mem _ ht
  rw [htop, foldSub_fresh r.replies _ hrest hnd.2]
  simp [idsOfReply]

theorem processReplies_fresh (rs : List Reply) :
    ∀ acc : List Nat × List (String × Nat),
      (∀ j ∈ idsOfReplies rs, j ∉ acc.1) → (idsOfReplies rs).Nodup →
      wfReplies rs →
      (processReplies rs acc).1 = acc.1 ++ idsOfReplies rs := by
  induction rs with
  | nil => intro acc _ _ _; simp [processReplies, idsOfReplies]
  | cons r rest ih =>
    intro acc hfresh hnd hwf
    have hdecomp : idsOfReplies (r :: rest)
        = idsOfReply r ++ idsOfReplies rest := by
      simp [idsOfReplies]
    rw [hdecomp] at hfresh hnd
    obtain ⟨hnd1, hnd2, hdisj⟩ := List.nodup_append.mp hnd
    have hr := collectReply_fresh acc r
      (fun j hj => hfresh j (List.mem_append_left _ hj)) hnd1
      (hwf r (List.mem_cons_self r rest))
    have hfresh2 : ∀ j ∈ idsOfReplies rest, j ∉ (collectReply acc r).1 := by
      intro j hj
      rw [hr]
      simp only [List.mem_append]
      push_neg
      exact ⟨hfresh j (List.mem_append_right _ hj), fun hj' => hdisj hj' hj⟩
    have hwf2 : wfReplies rest := fun t ht => hwf t (List.mem_cons_of_mem r ht)
    show (processReplies rest (collectReply acc r)).1 = _
    rw [ih (collectReply acc r) hfresh2 hnd2 hwf2, hr, hdecomp]
    simp [List.append_assoc]

theorem ceil_mul_ge (N p : Nat) (hp : 0 < p) : N ≤ ((N + p - 1) / p) * p := by
  rcases Nat.eq_zero_or_pos N with h | h
  · simp [h]
  · have h1 := Nat.div_add_mod (N + p - 1) p
    have h2 := Nat.mod_lt (N + p - 1) hp
    set q := (N + p - 1) / p with hq
    set r := (N + p - 1) % p with hr
    have h3 : q * p = p * q := Nat.mul_comm q p
    omega

theorem fetch_comments_mono (server : Nat → Option Page) :
    ∀ (f f' : Nat) (st : CrawlState), f ≤ f' →
      (fetch_comments server f st).2 = true →
      (fetch_comments server f' st).2 = true := by
  intro f
  induction f with
  | zero =>
    intro f' st _ h
    exact absurd h (by simp [fetch_comments])
  | succ f ih =>
    intro f' st hff h
    obtain ⟨g, rfl⟩ : ∃ g, f' = g + 1 := ⟨f' - 1, by omega⟩
    have h' : (match crawlStep server st with
      | .inl s => (s, true)
      | .inr st2 => fetch_comments server f st2).2 = true := h
    show (match crawlStep server st with
      | .inl s => (s, true)
      | .inr st2 => fetch_comments server g st2).2 = true
    cases hcs : crawlStep server st with
    | inl s => rfl
    | inr s =>
      rw [hcs] at h'
      exact ih g s (by omega) h'

theorem crawlBranch_pagin (rs : List Reply) (total n : Nat) (fetched : List Nat)
    (d : List (String × Nat)) (acc : List Nat × List (String × Nat)) :
    crawlBranch ⟨rs, ⟨false, total⟩⟩ ⟨n, fetched, d⟩ acc
      = (if 0 < total ∧ total ≤ acc.1.length then
           Sum.inl ⟨n + 1, acc.1, acc.2⟩
         else if acc.1.length - fetched.length = 0 ∧ 2 < n + 1 then
           Sum.inl ⟨n + 1, acc.1, acc.2⟩
         else Sum.inr ⟨n + 1, acc.1, acc.2⟩) := by
  simp [crawlBranch]

theorem crawl_paginate_step (items : List Reply) (p : Nat) (hp : 0 < p)
    (hw : wfReplies items) (hnd : (idsOfReplies items).Nodup)
    (k : Nat) (hk : k * p < items.length) (d : List (String × Nat)) :
    (items.length ≤ k * p + p →
      ∃ st2, crawlStep (paginate items p (idsOfReplies items).length)
          ⟨k + 1, idsOfReplies (items.take (k * p)), d⟩ = .inl st2) ∧
    (k * p + p < items.length →
      ∃ d2, crawlStep (paginate items p (idsOfReplies items).length)
          ⟨k + 1, idsOfReplies (items.take (k * p)), d⟩
        = .inr ⟨k + 2, idsOfReplies (items.take (k * p + p)), d2⟩) := by
  have hsv : paginate items p (idsOfReplies items).length (k + 1)
      = some ⟨(items.drop (k * p)).take p, ⟨false, (idsOfReplies items).length⟩⟩ := by
    simp [paginate]
  have hpglen : ((items.drop (k * p)).take p).length
      = min p (items.length - k * p) := by
    simp [List.length_take, List.length_drop]
  have hpg : (items.drop (k * p)).take p ≠ [] := by
    intro hcontra
    rw [hcontra] at hpglen
    simp only [List.length_nil] at hpglen
    omega
  have htake : items.take (k * p) ++ (items.drop (k * p)).take p
      = items.take (k * p + p) := (List.take_add items (k * p) p).symm
  have hids : idsOfReplies (items.take (k * p + p))
      = idsOfReplies (items.take (k * p))
        ++ idsOfReplies ((items.drop (k * p)).take p) := by
    rw [← htake, idsOfReplies_append]
  have hsplit : idsOfReplies items
      = idsOfReplies (items.take (k * p + p))
        ++ idsOfReplies (items.drop (k * p + p)) := by
    conv_lhs => rw [← List.take_append_drop (k * p + p) items]
    rw [idsOfReplies_append]
  have hndA : (idsOfReplies (items.take (k * p + p))).Nodup := by
    rw [hsplit] at hnd
    exact (List.nodup_append.mp hnd).1
  have hndparts := List.nodup_append.mp (hids ▸ hndA)
  have hproc : (processReplies ((items.drop (k * p)).take p)
      (idsOfReplies (items.take (k * p)), d)).1
      = idsOfReplies (items.take (k * p))
        ++ idsOfReplies ((items.drop (k * p)).take p) := by
    apply processReplies_fresh
    · intro j hj hj'
      exact hndparts.2.2 hj' hj
    · exact hndparts.2.1
    · intro r hr
      exact hw r (List.drop_subset _ _ (List.take_subset _ _ hr))
  have hstep : crawlStep (paginate items p (idsOfReplies items).length)
      ⟨k + 1, idsOfReplies (items.take (k * p)), d⟩
      = crawlBranch ⟨(items.drop (k * p)).take p, ⟨false, (idsOfReplies items).length⟩⟩
          ⟨k + 1, idsOfReplies (items.take (k * p)), d⟩
          (processReplies ((items.drop (k * p)).take p)
            (idsOfReplies (items.take (k * p)), d)) := by
    simp only [crawlStep, hsv]
    rw [if_neg hpg]
  have hnis : 1 ≤ (idsOfReplies ((items.drop (k * p)).take p)).length := by
    have hge := length_idsOfReplies_ge ((items.drop (k * p)).take p)
    have hpos : 0 < ((items.drop (k * p)).take p).length :=
      List.length_pos.mpr hpg
    omega
  constructor
  · intro hstop
    have hall : items.take (k * p + p) = items := List.take_of_length_le hstop
    have hacc1 : (processReplies ((items.drop (k * p)).take p)
        (idsOfReplies (items.take (k * p)), d)).1 = idsOfReplies items := by
      rw [hproc, ← hids, hall]
    have htpos : 0 < (idsOfReplies items).length := by
      have := length_idsOfReplies_ge items
      omega
    rw [hstep, crawlBranch_pagin]
    rw [if_pos (show 0 < (idsOfReplies items).length ∧
        (idsOfReplies items).length ≤ (processReplies ((items.drop (k * p)).take p)
          (idsOfReplies (items.take (k * p)), d)).1.length from
        ⟨htpos, by rw [hacc1]⟩)]
    exact ⟨_, rfl⟩
  · intro hcont
    have hlt : (idsOfReplies (items.take (k * p + p))).length
        < (idsOfReplies items).length := by
      have h1 : items.drop (k * p + p) ≠ [] := by
        intro hcontra
        have := congrArg List.length hcontra
        simp only [List.length_drop, List.length_nil] at this
        omega
      have h2 : 1 ≤ (idsOfReplies (items.drop (k * p + p))).length := by
        have hge := length_idsOfReplies_ge (items.drop (k * p + p))
        have hpos : 0 < (items.drop (k * p + p)).length := List.length_pos.mpr h1
        omega
      rw [hsplit, List.length_append]
      omega
    rw [hstep, crawlBranch_pagin]
    rw [if_neg (show ¬(0 < (idsOfReplies items).length ∧
        (idsOfReplies items).length ≤ (processReplies ((items.drop (k * p)).take p)
          (idsOfReplies (items.take (k * p)), d)).1.length) from by
      rintro ⟨-, hle⟩
      rw [hproc, ← hids] at hle
      omega)]
    rw [if_neg (show ¬((processReplies ((items.drop (k * p)).take p)
          (idsOfReplies (items.take (k * p)), d)).1.length
          - (idsOfReplies (items.take (k * p))).length = 0 ∧ 2 < k + 1 + 1) from by
      rintro ⟨h0, -⟩
      rw [hproc, List.length_append] at h0
      omega)]
    refine ⟨(processReplies ((items.drop (k * p)).take p)
      (idsOfReplies (items.take (k * p)), d)).2, ?_⟩
    rw [hproc, ← hids]

theorem crawl_paginate_run (items : List Reply) (p : Nat) (hp : 0 < p)
    (hw : wfReplies items) (hnd : (idsOfReplies items).Nodup) :
    ∀ (m k : Nat) (d : List (String × Nat)),
      items.length ≤ (k + m) * p → k * p < items.length →
      (fetch_comments (paginate items p (idsOfReplies items).length) m
        ⟨k + 1, idsOfReplies (items.take (k * p)), d⟩).2 = true := by
  intro m
  induction m with
  | zero =>
    intro k d hle hlt
    exfalso
    simp only [Nat.add_zero] at hle
    omega
  | succ m ih =>
    intro k d hle hlt
    show (match crawlStep (paginate items p (idsOfReplies items).length)
        ⟨k + 1, idsOfReplies (items.take (k * p)), d⟩ with
      | .inl s => (s, true)
      | .inr st2 =>
          fetch_comments (paginate items p (idsOfReplies items).length) m st2).2
        = true
    by_cases hstop : items.length ≤ k * p + p
    · obtain ⟨st2, hst⟩ :=
        (crawl_paginate_step items p hp hw hnd k hlt d).1 hstop
      rw [hst]
    · push_neg at hstop
      obtain ⟨d2, hst⟩ :=
        (crawl_paginate_step items p hp hw hnd k hlt d).2 hstop
      rw [hst]
      have h1 : k * p + p = (k + 1) * p := by ring
      rw [show (⟨k + 2, idsOfReplies (items.take (k * p + p)), d2⟩ : CrawlState)
          = ⟨k + 1 + 1, idsOfReplies (items.take ((k + 1) * p)), d2⟩ from by rw [h1]]
      apply ih (k + 1) d2
      · have h2 : (k + 1 + m) * p = (k + (m + 1)) * p := by ring
        rw [h2]
        exact hle
      · rw [← h1]
        exact hstop

/-- C2 counterexample: a page sequence whose `cursor.totalCount` is truthful
(`all_count = 6` on every page, and exactly 6 distinct ids are served) with
`pageSize = 2` replies on every page, on which the loop needs 5 iterations —
strictly more than `ceil(totalCount/pageSize) + 1 = 4` — because consecutive
pages overlap by one id. -/
theorem fetch_comments_bound_cex :
    (∀ pg ∈ cexPages2, pg.cursor.all_count = 6 ∧ pg.replies.length = 2) ∧
    (cexPages2.flatMap (fun pg => idsOfReplies pg.replies)).dedup.length = 6 ∧
    (fetch_comments cexServer2 4 initState).2 = false ∧
    (fetch_comments cexServer2 5 initState).2 = true := by
  decide

/-- C2 (amended): when the server paginates a fixed reply list with page
size `p`, reports the truthful total id count on every page and serves no
id twice (all served ids distinct, recordable), the loop reaches a break
within `ceil(totalCount/p) + 1` iterations; and, for any server at all, if
the second page contributes zero new ids the loop breaks within 2
iterations of the first page. -/
theorem fetch_comments_bound (items : List Reply) (p : Nat) (hp : 0 < p)
    (hw : wfReplies items) (hnd : (idsOfReplies items).Nodup) :
    (fetch_comments (paginate items p (idsOfReplies items).length)
        (((idsOfReplies items).length + p - 1) / p + 1) initState).2 = true ∧
    (∀ server : Nat → Option Page,
      (∀ pg1, server 1 = some pg1 → ∀ pg2, server 2 = some pg2 →
        (processReplies pg2.replies (processReplies pg1.replies ([], []))).1.length
          = (processReplies pg1.replies ([], [])).1.length) →
      (fetch_comments server 2 initState).2 = true) := by
  constructor
  · rcases Nat.eq_zero_or_pos items.length with hN | hN
    · have hitems : items = [] := List.length_eq_zero.mp hN
      subst hitems
      have hcs : crawlStep (paginate [] p (idsOfReplies ([] : List Reply)).length)
          initState = .inl initState := by
        simp [crawlStep, paginate, initState]
      show (match crawlStep (paginate [] p (idsOfReplies ([] : List Reply)).length)
          initState with
        | .inl s => (s, true)
        | .inr st2 => fetch_comments _ (((idsOfReplies ([] : List Reply)).length
            + p - 1) / p) st2).2 = true
      rw [hcs]
    · have hinit : (⟨0 + 1, idsOfReplies (items.take (0 * p)), []⟩ : CrawlState)
          = initState := by
        simp [initState, idsOfReplies]
      have hrun := crawl_paginate_run items p hp hw hnd
        ((items.length + p - 1) / p) 0 []
        (by rw [Nat.zero_add]; exact ceil_mul_ge items.length p hp)
        (by simpa using hN)
      rw [hinit] at hrun
      apply fetch_comments_mono _ _ _ _ _ hrun
      have hle : items.length ≤ (idsOfReplies items).length :=
        length_idsOfReplies_ge items
      have := Nat.div_le_div_right (c := p)
        (show items.length + p - 1 ≤ (idsOfReplies items).length + p - 1 by omega)
      omega
  · intro server hzero
    show (match crawlStep server initState with
      | .inl s => (s, true)
      | .inr st2 => fetch_comments server 1 st2).2 = true
    cases hsv : server 1 with
    | none =>
      have hcs : crawlStep server initState = .inl initState := by
        simp [crawlStep, initState, hsv]
      rw [hcs]
    | some pg1 =>
      by_cases hr1 : pg1.replies = []
      · have hcs : crawlStep server initState = .inl initState := by
          simp [crawlStep, initState, hsv, hr1]
        rw [hcs]
      · have heval : crawlStep server initState
            = crawlBranch pg1 initState (processReplies pg1.replies ([], [])) := by
          simp only [crawlStep, initState, hsv]
          rw [if_neg hr1]
        rw [heval]
        unfold crawlBranch
        split_ifs with c1 c2 c3
        · rfl
        · rfl
        · rfl
        · show (match crawlStep server
              ⟨initState.current_page_num + 1,
               (processReplies pg1.replies ([], [])).1,
               (processReplies pg1.replies ([], [])).2⟩ with
            | .inl s => (s, true)
            | .inr st2 => fetch_comments server 0 st2).2 = true
          cases hsv2 : server 2 with
          | none =>
            have hcs2 : crawlStep server
                ⟨initState.current_page_num + 1,
                 (processReplies pg1.replies ([], [])).1,
                 (processReplies pg1.replies ([], [])).2⟩
                = .inl ⟨initState.current_page_num + 1,
                    (processReplies pg1.replies ([], [])).1,
                    (processReplies pg1.replies ([], [])).2⟩ := by
              simp [crawlStep, initState, hsv2]
            rw [hcs2]
          | some pg2 =>
            by_cases hr2 : pg2.replies = []
            · have hcs2 : crawlStep server
                  ⟨initState.current_page_num + 1,
                   (processReplies pg1.replies ([], [])).1,
                   (processReplies pg1.replies ([], [])).2⟩
                  = .inl ⟨initState.current_page_num + 1,
                      (processReplies pg1.replies ([], [])).1,
                      (processReplies pg1.replies ([], [])).2⟩ := by
                simp [crawlStep, initState, hsv2, hr2]
              rw [hcs2]
            · have heval2 : crawlStep server
                  ⟨initState.current_page_num + 1,
                   (processReplies pg1.replies ([], [])).1,
                   (processReplies pg1.replies ([], [])).2⟩
                  = crawlBranch pg2
                      ⟨initState.current_page_num + 1,
                       (processReplies pg1.replies ([], [])).1,
                       (processReplies pg1.replies ([], [])).2⟩
                      (processReplies pg2.replies (processReplies pg1.replies ([], []))) := by
                simp only [crawlStep, initState, hsv2]
                rw [if_neg hr2]
              rw [heval2]
              unfold crawlBranch
              split_ifs with d1 d2 d3
              · rfl
              · rfl
              · rfl
              · exfalso
                apply d3
                constructor
                · show (processReplies pg2.replies
                      (processReplies pg1.replies ([], []))).1.length
                      - (processReplies pg1.replies ([], [])).1.length = 0
                  rw [hzero pg1 hsv pg2 hsv2]
                  omega
                · show (2 : Nat) < 1 + 1 + 1
                  omega

/-- Witness for the amended C2 at a one-reply list with page size 1. -/
theorem fetch_comments_bound_w :
    (fetch_comments (paginate [mkReply 1] 1 (idsOfReplies [mkReply 1]).length)
        (((idsOfReplies [mkReply 1]).length + 1 - 1) / 1 + 1) initState).2
      = true :=
  (fetch_comments_bound [mkReply 1] 1 (by decide) (by decide) (by decide)).1

/-- C5: every token emitted by `preprocess_text` has length above 1, does
not case-insensitively match any stopword, and (when the extra filter set is
non-empty) contains no filter term as a case-insensitive substring; an input
that is empty after stripping yields the empty token list, not an error.
The stopword hypothesis (`STOPWORDS` entries are lowercase-stable) holds for
the baseline set and for loaded custom stopwords, which `load_stopwords`
lowercases. -/
theorem preprocess_text_spec (seg : String → List String)
    (stopwords custom_filter_words : List String) (text : String)
    (hstop : ∀ s ∈ stopwords, pyLower s = s) :
    (∀ w ∈ preprocess_text seg stopwords custom_filter_words text,
      1 < w.length ∧ (∀ s ∈ stopwords, pyLower w ≠ pyLower s) ∧
      (custom_filter_words ≠ [] → ∀ t ∈ custom_filter_words,
        hasSub (pyLower t).toList (pyLower w).toList = false)) ∧
    (cleanText text = "" →
      preprocess_text seg stopwords custom_filter_words text = []) := by
  constructor
  · intro w hw
    unfold preprocess_text at hw
    by_cases ht : cleanText text = ""
    · simp [ht] at hw
    · rw [if_neg ht] at hw
      by_cases hcf : custom_filter_words.isEmpty
      · rw [if_pos hcf] at hw
        have hm := List.mem_filter.mp hw
        have hcond := hm.2
        simp only [Bool.and_eq_true, Bool.not_eq_true', decide_eq_true_eq] at hcond
        refine ⟨hcond.2, ?_, ?_⟩
        · intro s hs heq
          have hc : stopwords.contains (pyLower w) = false := hcond.1.2
          rw [heq, hstop s hs] at hc
          simp at hc
          exact hc hs
        · intro hne
          exact absurd (List.isEmpty_iff.mp hcf) hne
      · rw [if_neg hcf] at hw
        have hm := List.mem_filter.mp hw
        have hm1 := List.mem_filter.mp hm.1
        have hcond := hm1.2
        simp only [Bool.and_eq_true, Bool.not_eq_true', decide_eq_true_eq] at hcond
        have hfilt := hm.2
        simp only [Bool.not_eq_true', List.any_eq_false] at hfilt
        refine ⟨hcond.2, ?_, ?_⟩
        · intro s hs heq
          have hc : stopwords.contains (pyLower w) = false := hcond.1.2
          rw [heq, hstop s hs] at hc
          simp at hc
          exact hc hs
        · intro _ t ht
          exact Bool.eq_false_iff.mpr (hfilt t ht)
  · intro h
    unfold preprocess_text
    rw [if_pos h]

/-- Witness for C5: the empty input normalizes to the empty token list under
the baseline stopwords. -/
theorem preprocess_text_spec_w :
    preprocess_text (fun s => [s]) default_stopwords [] "" = [] :=
  (preprocess_text_spec (fun s => [s]) default_stopwords [] "" (by decide)).2
    (by decide)

/-- C7: a retrieval error on one segment makes that segment's outcome empty
(`none`, so it contributes neither a dict entry nor combined texts), and the
batch result is exactly the result of the remaining segments — one
segment's failure never halts the rest. -/
theorem fetch_danmaku_spec (pages_info : List Nat) (topCid : Option Nat)
    (view : Nat → Except Unit Nat)
    (fetchD : Nat → Nat → Nat → Except Unit (List String))
    (xs ys : List (String × SegConfig)) (name : String) (config : SegConfig)
    (herr : segOutcome pages_info topCid view fetchD config = none) :
    (fetch_and_save_danmaku pages_info topCid view fetchD
        (xs ++ (name, config) :: ys)
      = fetch_and_save_danmaku pages_info topCid view fetchD (xs ++ ys)) ∧
    (∀ cid f t, resolveCid pages_info topCid config = some cid →
      config.from_seg = some f → config.to_seg = some t →
      fetchD cid f t = .error () →
      segOutcome pages_info topCid view fetchD config = none) := by
  constructor
  · unfold fetch_and_save_danmaku
    rw [List.foldl_append, List.foldl_append, List.foldl_cons, herr]
  · intro cid f t hcid hf htt hfe
    simp [segOutcome, hcid, hf, htt, hfe]

/-- Witness for C7: with an always-failing provider, the failing segment `B`
drops out and segment `A` is unaffected. -/
theorem fetch_danmaku_spec_w :
    fetch_and_save_danmaku [7] none (fun _ => .error ()) (fun _ _ _ => .error ())
        ([("A", ⟨0, none, some 0, some 0⟩)] ++ ("B", ⟨0, none, some 0, some 0⟩) :: [])
      = fetch_and_save_danmaku [7] none (fun _ => .error ()) (fun _ _ _ => .error ())
        ([("A", ⟨0, none, some 0, some 0⟩)] ++ []) :=
  (fetch_danmaku_spec [7] none (fun _ => .error ()) (fun _ _ _ => .error ())
    [("A", ⟨0, none, some 0, some 0⟩)] [] "B" ⟨0, none, some 0, some 0⟩
    (by decide)).1

theorem indexOf_filter_lt (p : String → Bool) (l : List String) :
    ∀ u v, u ∈ l.filter p → v ∈ l.filter p →
      (l.filter p).indexOf u < (l.filter p).indexOf v →
      l.indexOf u < l.indexOf v := by
  induction l with
  | nil => intro u v hu _ _; simp at hu
  | cons x xs ih =>
    intro u v hu hv h
    by_cases hp : p x
    · rw [List.filter_cons_of_pos hp] at hu hv h
      by_cases hxu : u = x
      · subst hxu
        have hvu : v ≠ u := by
          intro he
          subst he
          exact lt_irrefl _ h
        rw [List.indexOf_cons_self, List.indexOf_cons_ne _ (fun he => hvu he.symm)]
        exact Nat.succ_pos _
      · by_cases hxv : v = x
        · subst hxv
          rw [List.indexOf_cons_self] at h
          exact absurd h (Nat.not_lt_zero _)
        · have hu' : u ∈ xs.filter p := by
            rcases List.mem_cons.mp hu with he | h'
            · exact absurd he hxu
            · exact h'
          have hv' : v ∈ xs.filter p := by
            rcases List.mem_cons.mp hv with he | h'
            · exact absurd he hxv
            · exact h'
          rw [List.indexOf_cons_ne _ (fun he => hxu he.symm),
            List.indexOf_cons_ne _ (fun he => hxv he.symm)] at h
          rw [List.indexOf_cons_ne _ (fun he => hxu he.symm),
            List.indexOf_cons_ne _ (fun he => hxv he.symm)]
          exact Nat.succ_lt_succ (ih u v hu' hv' (Nat.lt_of_succ_lt_succ h))
    · rw [List.filter_cons_of_neg hp] at hu hv h
      have hxu : x ≠ u := by
        intro he
        subst he
        exact hp (List.of_mem_filter hu)
      have hxv : x ≠ v := by
        intro he
        subst he
        exact hp (List.of_mem_filter hv)
      rw [List.indexOf_cons_ne _ hxu, List.indexOf_cons_ne _ hxv]
      exact Nat.succ_lt_succ (ih u v hu hv h)

theorem firstOccs_subset : ∀ (l : List String), ∀ u ∈ firstOccs l, u ∈ l := by
  intro l
  induction l using firstOccs.induct with
  | case1 => intro u hu; simp [firstOccs] at hu
  | case2 w rest ih =>
    intro u hu
    rw [firstOccs] at hu
    rcases List.mem_cons.mp hu with rfl | hu'
    · exact List.mem_cons_self _ _
    · exact List.mem_cons_of_mem _ (List.mem_of_mem_filter (ih u hu'))

theorem firstOccs_pairwise (l : List String) :
    (firstOccs l).Pairwise (fun u v => l.indexOf u < l.indexOf v) := by
  induction l using firstOccs.induct with
  | case1 => simp [firstOccs]
  | case2 w rest ih =>
    rw [firstOccs]
    refine List.Pairwise.cons ?_ ?_
    · intro v hv
      have hvf := firstOccs_subset _ v hv
      have hvw : v ≠ w := by simpa using List.of_mem_filter hvf
      rw [List.indexOf_cons_self, List.indexOf_cons_ne _ (fun he => hvw he.symm)]
      exact Nat.succ_pos _
    · refine List.Pairwise.imp_of_mem ?_ ih
      intro u v hu hv hlt
      have huf := firstOccs_subset _ u hu
      have hvf := firstOccs_subset _ v hv
      have huw : u ≠ w := by simpa using List.of_mem_filter huf
      have hvw : v ≠ w := by simpa using List.of_mem_filter hvf
      have hres := indexOf_filter_lt _ rest u v huf hvf hlt
      rw [List.indexOf_cons_ne _ (fun he => huw he.symm),
        List.indexOf_cons_ne _ (fun he => hvw he.symm)]
      exact Nat.succ_lt_succ hres

theorem mem_insertByCountDesc (x z : String × Nat) :
    ∀ l : List (String × Nat), z ∈ insertByCountDesc x l ↔ z = x ∨ z ∈ l := by
  intro l
  induction l with
  | nil => simp [insertByCountDesc]
  | cons y ys ih =>
    by_cases h : x.2 < y.2
    · simp only [insertByCountDesc, if_pos h, List.mem_cons, ih]
      tauto
    · simp only [insertByCountDesc, if_neg h, List.mem_cons]

theorem insertByCountDesc_pairwise (key : String → Nat) (x : String × Nat) :
    ∀ l : List (String × Nat),
      l.Pairwise (fun a b => b.2 < a.2 ∨ (a.2 = b.2 ∧ key a.1 < key b.1)) →
      (∀ y ∈ l, key x.1 < key y.1) →
      (insertByCountDesc x l).Pairwise
        (fun a b => b.2 < a.2 ∨ (a.2 = b.2 ∧ key a.1 < key b.1)) := by
  intro l
  induction l with
  | nil => intro _ _; simp [insertByCountDesc]
  | cons y ys ih =>
    intro hp hx
    rw [List.pairwise_cons] at hp
    by_cases h : x.2 < y.2
    · rw [show insertByCountDesc x (y :: ys) = y :: insertByCountDesc x ys from
        by simp [insertByCountDesc, h]]
      refine List.Pairwise.cons ?_
        (ih hp.2 (fun z hz => hx z (List.mem_cons_of_mem _ hz)))
      intro z hz
      rcases (mem_insertByCountDesc x z ys).mp hz with rfl | hz'
      · exact Or.inl h
      · exact hp.1 z hz'
    · rw [show insertByCountDesc x (y :: ys) = x :: y :: ys from
        by simp [insertByCountDesc, h]]
      refine List.Pairwise.cons ?_ (List.pairwise_cons.mpr hp)
      intro z hz
      rcases List.mem_cons.mp hz with rfl | hz'
      · rcases Nat.lt_or_ge z.2 x.2 with hlt | hge
        · exact Or.inl hlt
        · exact Or.inr ⟨by omega, hx z (List.mem_cons_self _ _)⟩
      · have hyz := hp.1 z hz'
        have hzy : z.2 ≤ y.2 := by
          rcases hyz with h1 | h2
          · omega
          · omega
        rcases Nat.lt_or_ge z.2 x.2 with hlt | hge
        · exact Or.inl hlt
        · exact Or.inr ⟨by omega, hx z (List.mem_cons_of_mem _ hz')⟩

theorem mem_sortByCountDesc (z : String × Nat) :
    ∀ l : List (String × Nat), z ∈ sortByCountDesc l ↔ z ∈ l := by
  intro l
  induction l with
  | nil => simp [sortByCountDesc]
  | cons x xs ih =>
    simp [sortByCountDesc, mem_insertByCountDesc, ih]

theorem sortByCountDesc_pairwise (key : String → Nat) :
    ∀ l : List (String × Nat),
      l.Pairwise (fun a b => key a.1 < key b.1) →
      (sortByCountDesc l).Pairwise
        (fun a b => b.2 < a.2 ∨ (a.2 = b.2 ∧ key a.1 < key b.1)) := by
  intro l
  induction l with
  | nil => intro _; simp [sortByCountDesc]
  | cons x xs ih =>
    intro hp
    rw [List.pairwise_cons] at hp
    show (insertByCountDesc x (sortByCountDesc xs)).Pairwise _
    apply insertByCountDesc_pairwise key x _ (ih hp.2)
    intro y hy
    exact hp.1 y ((mem_sortByCountDesc y xs).mp hy)

/-- C8: `get_top_n_words` returns at most `n` pairs, pairwise ordered by
strictly greater count or, on count ties, by earlier first occurrence in the
flattened token stream; the empty input list and an input whose every text
normalizes to zero tokens both yield the empty list. -/
theorem get_top_n_words_spec (seg : String → List String)
    (stopwords : List String) (texts : List String) (n : Nat) :
    (get_top_n_words seg stopwords texts n).length ≤ n ∧
    (get_top_n_words seg stopwords texts n).Pairwise (fun a b =>
      b.2 < a.2 ∨ (a.2 = b.2 ∧
        (flatTokens seg stopwords texts).indexOf a.1
          < (flatTokens seg stopwords texts).indexOf b.1)) ∧
    get_top_n_words seg stopwords [] n = [] ∧
    ((∀ t ∈ texts, preprocess_text seg stopwords [] t = []) →
      get_top_n_words seg stopwords texts n = []) := by
  have hsorted : (sortByCountDesc (counterItems (flatTokens seg stopwords texts))).Pairwise
      (fun a b => b.2 < a.2 ∨ (a.2 = b.2 ∧
        (flatTokens seg stopwords texts).indexOf a.1
          < (flatTokens seg stopwords texts).indexOf b.1)) := by
    apply sortByCountDesc_pairwise
      (fun w => (flatTokens seg stopwords texts).indexOf w)
    unfold counterItems
    rw [List.pairwise_map]
    exact firstOccs_pairwise _
  refine ⟨?_, ?_, rfl, ?_⟩
  · unfold get_top_n_words
    split_ifs
    · simp
    · simp
    · exact List.length_take_le _ _
  · unfold get_top_n_words
    split_ifs
    · simp
    · simp
    · exact hsorted.sublist (List.take_sublist _ _)
  · intro hall
    have hft : ∀ ts : List String,
        (∀ t ∈ ts, preprocess_text seg stopwords [] t = []) →
        flatTokens seg stopwords ts = [] := by
      intro ts
      induction ts with
      | nil => intro _; rfl
      | cons t ts2 ih =>
        intro h2
        unfold flatTokens at ih ⊢
        rw [List.flatMap_cons, h2 t (List.mem_cons_self t ts2)]
        exact ih (fun u hu => h2 u (List.mem_cons_of_mem t hu))
    unfold get_top_n_words
    rw [hft texts hall]
    simp

/-- Witness for C8: a whitespace-only corpus normalizes to zero tokens and
yields the empty table. -/
theorem get_top_n_words_spec_w :
    get_top_n_words (fun s => [s]) default_stopwords [" "] 10 = [] :=
  (get_top_n_words_spec (fun s => [s]) default_stopwords [" "] 10).2.2.2
    (by decide)


example : searchRange "01:23-02:03".toList
    = some ("01:23".toList, "02:03".toList) := by decide
example : searchRange "见 1:02:03 - 1:05:00 处".toList
    = some ("1:02:03".toList, "1:05:00".toList) := by decide
example : searchRange "12:00".toList = none := by decide
example : time_to_seconds "01:23" = some 83 := by decide
example : time_to_seconds "1:02:03" = some 3723 := by decide
example : time_to_seconds "x" = none := by decide
example : cleanText "[doge]http://x.com 的 真好看@user" = "的 真好看" := by decide
example : preprocess_text (fun _ => ["的", "真好看", "x"]) default_stopwords [] "真好看"
    = ["真好看"] := by decide

end Bili
